import Mathlib

/-!
# Moodiary (`src/Moodiary/src/App.jsx`): date-indexed entry store, edit window,
calendar grid and trend projection

The component `App` is embedded as pure functions over an explicit state record.
The host `Date` object is embedded after the ECMAScript date algorithms
(`Day`, `DayFromYear`, `YearFromTime`, `MonthFromTime`, `DateFromTime`, `MakeDay`,
`MakeDate`, `TimeClip`), with time values as integers (milliseconds since the epoch)
and `Option.none` standing for `NaN` / `Invalid Date`.  The host's time-zone data is a
parameter `z : Zone`: the offset in force at first and the clock changes after it, so
that daylight-saving days of 23 and 25 hours are inside the model.
-/

namespace Moodiary

/-! ## Host `Date` arithmetic -/

/-- Milliseconds in a day. -/
def msPerDay : Int := 86400000

/-- Largest magnitude of a time value (`8.64e15`). -/
def maxTime : Int := 8640000000000000

/-- Day number of a time value: `floor(t / msPerDay)`. -/
def Day (t : Int) : Int := t / msPerDay

/-- Number of days of year `y`. -/
def DaysInYear (y : Int) : Int :=
  if y % 4 ≠ 0 then 365
  else if y % 100 ≠ 0 then 366
  else if y % 400 ≠ 0 then 365
  else 366

/-- Day number of the first day of year `y`. -/
def DayFromYear (y : Int) : Int :=
  365 * (y - 1970) + (y - 1969) / 4 - (y - 1901) / 100 + (y - 1601) / 400

/-- Time value of the start of year `y`. -/
def TimeFromYear (y : Int) : Int := msPerDay * DayFromYear y

/-- Year of a day number: the largest `y` with `DayFromYear y ≤ d`, found from the
mean-year estimate `1970 + floor(400 d / 146097)`, which is off by at most one. -/
def yearFromDay (d : Int) : Int :=
  let g := 1970 + (400 * d) / 146097
  if DayFromYear (g + 1) ≤ d then g + 1
  else if DayFromYear g ≤ d then g
  else g - 1

/-- Year of a time value: the largest `y` with `TimeFromYear y ≤ t`. -/
def YearFromTime (t : Int) : Int := yearFromDay (Day t)

/-- One in a leap year, zero otherwise. -/
def InLeapYear (t : Int) : Int :=
  if DaysInYear (YearFromTime t) = 366 then 1 else 0

/-- Zero-based day within the year. -/
def DayWithinYear (t : Int) : Int := Day t - DayFromYear (YearFromTime t)

/-- The month table: month number (0 = January) of zero-based day `d` of a year with
leap flag `l`. -/
def monthOfDayWithinYear (d l : Int) : Int :=
  if d < 31 then 0
  else if d < 59 + l then 1
  else if d < 90 + l then 2
  else if d < 120 + l then 3
  else if d < 151 + l then 4
  else if d < 181 + l then 5
  else if d < 212 + l then 6
  else if d < 243 + l then 7
  else if d < 273 + l then 8
  else if d < 304 + l then 9
  else if d < 334 + l then 10
  else 11

/-- Month number (0 = January) of a time value. -/
def MonthFromTime (t : Int) : Int :=
  monthOfDayWithinYear (DayWithinYear t) (InLeapYear t)

/-- Day of the month (1-based) of a time value. -/
def DateFromTime (t : Int) : Int :=
  let d := DayWithinYear t
  let l := InLeapYear t
  let m := MonthFromTime t
  if m = 0 then d + 1
  else if m = 1 then d - 30
  else if m = 2 then d - 58 - l
  else if m = 3 then d - 89 - l
  else if m = 4 then d - 119 - l
  else if m = 5 then d - 150 - l
  else if m = 6 then d - 180 - l
  else if m = 7 then d - 211 - l
  else if m = 8 then d - 242 - l
  else if m = 9 then d - 272 - l
  else if m = 10 then d - 303 - l
  else d - 333 - l

/-- Zero-based day within the year on which month `mn` (0..11) starts; `l` is one in
a leap year. -/
def monthStart (mn : Int) (l : Int) : Int :=
  if mn ≤ 0 then 0
  else if mn ≤ 1 then 31
  else if mn ≤ 2 then 59 + l
  else if mn ≤ 3 then 90 + l
  else if mn ≤ 4 then 120 + l
  else if mn ≤ 5 then 151 + l
  else if mn ≤ 6 then 181 + l
  else if mn ≤ 7 then 212 + l
  else if mn ≤ 8 then 243 + l
  else if mn ≤ 9 then 273 + l
  else if mn ≤ 10 then 304 + l
  else 334 + l

/-- The range clip of time values: `NaN` beyond `±8.64e15`. -/
def TimeClip (t : Int) : Option Int :=
  if t < -maxTime ∨ maxTime < t then none else some t

/-- Day number from year, month and date: the month is carried into the year
(`ym = year + floor(month / 12)`, `mn = month mod 12`); the result is the day of the
first of that month plus `date - 1`, or `NaN` when the first of the month is not a
finite time value. -/
def MakeDay (year month date : Int) : Option Int :=
  let ym := year + month / 12
  let mn := month % 12
  let first := DayFromYear ym + monthStart mn (if DaysInYear ym = 366 then 1 else 0)
  match TimeClip (first * msPerDay) with
  | none => none
  | some _ => some (first + date - 1)

/-- Milliseconds within the day from hours, minutes, seconds, milliseconds. -/
def MakeTime (hour min sec ms : Int) : Int :=
  hour * 3600000 + min * 60000 + sec * 1000 + ms

/-- Time value from a day number and a time within the day. -/
def MakeDate (day time : Int) : Int := day * msPerDay + time

/-- The host's time-zone data: the offset from UTC (milliseconds) in force before the
first clock change, and the clock changes in increasing order of instant, each an
instant (a UTC time value) with the offset in force from then on. -/
structure Zone where
  base : Int
  changes : List (Int × Int)
  deriving DecidableEq, Repr

/-- A zone without clock changes. -/
def Zone.fixed (off : Int) : Zone := { base := off, changes := [] }

/-- The offset in force at the UTC instant `t`: `o` before the first clock change, the
offset of the last change at or before `t` otherwise. -/
def utcOffset (o : Int) : List (Int × Int) → Int → Int
  | [], _ => o
  | (T, o2) :: rest, t => if t < T then o else utcOffset o2 rest t

/-- The offset with which the local time `tl` is read.  A local time that a clock change
repeats or skips is read with the offset before the change. -/
def localOffset (o : Int) : List (Int × Int) → Int → Int
  | [], _ => o
  | (T, o2) :: rest, tl => if tl < T + max o o2 then o else localOffset o2 rest tl

/-- The host operation `LocalTZA(t, isUTC)`. -/
def LocalTZA (z : Zone) (t : Int) (isUTC : Bool) : Int :=
  match isUTC with
  | true => utcOffset z.base z.changes t
  | false => localOffset z.base z.changes t

/-- Local time of a UTC time value: `t + LocalTZA(t, true)`. -/
def LocalTime (z : Zone) (t : Int) : Int := t + LocalTZA z t true

/-- UTC time value of a local time: `t - LocalTZA(t, false)`. -/
def UTC (z : Zone) (t : Int) : Int := t - LocalTZA z t false

/-- Zone data in which the clock changes come in increasing order and none carries the
local clock across a local midnight: the readings one millisecond before a change and
at the change fall on calendar days in order, whichever of the two offsets reads them.
(A change may start or end exactly at a local midnight.) -/
def changesOk (o : Int) : List (Int × Int) → Bool
  | [] => true
  | (T, o2) :: rest =>
    decide (Day (T + o - 1) ≤ Day (T + o2)) && decide (Day (T + o2 - 1) ≤ Day (T + o)) &&
      (match rest with
        | [] => true
        | (T2, _) :: _ => decide (T < T2)) &&
      changesOk o2 rest

/-- Two-digit years of the `Date` constructor: `0..99` stand for `1900..1999`. -/
def MakeFullYear (y : Int) : Int :=
  if 0 ≤ y ∧ y ≤ 99 then 1900 + y else y

/-- The call `new Date(year, month, date)`: local midnight of the given day, as a time
value, or `none` for an `Invalid Date`. -/
def newDate (z : Zone) (year month date : Int) : Option Int :=
  match MakeDay (MakeFullYear year) month date with
  | none => none
  | some day => TimeClip (UTC z (MakeDate day (MakeTime 0 0 0 0)))

/-- The method `getDate()`: day of the month in local time, `NaN` on an invalid date. -/
def getDate (z : Zone) (d : Option Int) : Option Int :=
  match d with
  | none => none
  | some t => some (DateFromTime (LocalTime z t))

/-- The call `today.setHours(0, 0, 0, 0)`: the time value of local midnight of the
local day of `t`, read back to UTC with the zone's offset for that local time.  The
receiver is the wall-clock reading `new Date()`; the range clip, inert there, is left
out. -/
def setHours0 (z : Zone) (t : Int) : Int :=
  UTC z (MakeDate (Day (LocalTime z t)) (MakeTime 0 0 0 0))

/-- App.jsx line 112: `new Date(year, month + 1, 0).getDate()`. -/
def getDaysInMonth (z : Zone) (year month : Int) : Option Int :=
  getDate z (newDate z year (month + 1) 0)

/-- The length conversion of `Array.from` on an object with only a `length`: `NaN` and
negative lengths give zero. -/
def toLength (n : Option Int) : Nat :=
  match n with
  | none => 0
  | some k => k.toNat

/-- App.jsx line 113: `Array.from` of length `getDaysInMonth(currentYear, currentMonth)`
with element `i + 1` at index `i`. -/
def days (z : Zone) (year month : Int) : List Int :=
  (List.range (toLength (getDaysInMonth z year month))).map (fun (i : Nat) => (i : Int) + 1)

/-- The method `toLocaleDateString()` in the locale-default short rendering
`M/D/YYYY` of the local calendar day. -/
def toLocaleDateString (z : Zone) (t : Int) : String :=
  let lt := LocalTime z t
  toString (MonthFromTime lt + 1) ++ "/" ++ toString (DateFromTime lt) ++ "/" ++
    toString (YearFromTime lt)

/-- The rendering of a possibly invalid date: `"Invalid Date"` for `NaN`. -/
def dateToLocaleDateString (z : Zone) (d : Option Int) : String :=
  match d with
  | none => "Invalid Date"
  | some t => toLocaleDateString z t

/-! ## Application state (App.jsx lines 16-49) -/

/-- The weather snapshot with fields `temp` and `condition`; `temp` is `null` until
fetched.  The reading is a payload no function here inspects, kept as an integer. -/
structure Weather where
  temp : Option Int
  condition : String
  deriving DecidableEq, Repr

/-- An element of `moodHistory`, with fields `mood`, `note`, `date` and `weather`. -/
structure MoodEntry where
  mood : String
  note : String
  date : String
  weather : Weather
  deriving DecidableEq, Repr

/-- The `useState` cells of `App`; `selectedDate` holds the time value of a valid
`Date` (it starts as `new Date()` and is only replaced under the guard of
`handleDateClick`, which an invalid date fails). -/
structure AppState where
  mood : String
  note : String
  weather : Weather
  moodHistory : List MoodEntry
  selectedDate : Int
  currentYear : Int
  currentMonth : Int
  openSnackbar : Bool
  snackbarMessage : String
  deriving DecidableEq, Repr

/-- The array method `findIndex` from position `k` on: the index of the first element
satisfying `p`, or `-1`. -/
def findIndexFrom {α : Type} (p : α → Bool) : List α → Nat → Int
  | [], _ => -1
  | x :: xs, k => if p x then (k : Int) else findIndexFrom p xs (k + 1)

/-- The array method `findIndex`. -/
def findIndex {α : Type} (p : α → Bool) (l : List α) : Int := findIndexFrom p l 0

/-- The entry object built at App.jsx lines 97 and 100 from the drafts, with
`dateStr = selectedDate.toLocaleDateString()`. -/
def newEntry (z : Zone) (s : AppState) : MoodEntry :=
  { mood := s.mood, note := s.note, date := toLocaleDateString z s.selectedDate
    weather := s.weather }

/-- The body of `getMoodForDate` after the key is computed: the mood of the last
stored entry whose date is `key`, or the empty string. -/
def lastMoodFor (moodHistory : List MoodEntry) (key : String) : String :=
  let entries := moodHistory.filter (fun entry => entry.date == key)
  if entries.length > 0 then
    match entries[entries.length - 1]? with
    | some entry => entry.mood
    | none => ""
  else ""

/-- The lookup key of day number `date` of the viewed month, as `getMoodForDate`
computes it: `new Date(currentYear, currentMonth, date).toLocaleDateString()`. -/
def dateKey (z : Zone) (s : AppState) (date : Int) : String :=
  dateToLocaleDateString z (newDate z s.currentYear s.currentMonth date)

/-- App.jsx lines 91-109.  `today` is the render-time `new Date()`; the state setters
of one handler run take effect together. -/
def saveMood (z : Zone) (today : Int) (s : AppState) : AppState :=
  if s.mood ≠ "" ∧ s.note ≠ "" ∧ s.selectedDate ≥ setHours0 z today then
    let dateStr := toLocaleDateString z s.selectedDate
    let existingIndex := findIndex (fun entry => entry.date == dateStr) s.moodHistory
    let entry : MoodEntry :=
      { mood := s.mood, note := s.note, date := dateStr, weather := s.weather }
    let updatedHistory :=
      if existingIndex ≥ 0 then s.moodHistory.set existingIndex.toNat entry
      else s.moodHistory ++ [entry]
    { s with
      moodHistory := updatedHistory
      mood := ""
      note := ""
      snackbarMessage := "Mood saved successfully!"
      openSnackbar := true }
  else s

/-- App.jsx lines 116-121.  An invalid `newDate` compares false. -/
def handleDateClick (z : Zone) (today : Int) (day : Int) (s : AppState) : AppState :=
  match newDate z s.currentYear s.currentMonth day with
  | none => s
  | some nd => if nd ≥ setHours0 z today then { s with selectedDate := nd } else s

/-- App.jsx lines 123-126. -/
def getMoodForDate (z : Zone) (s : AppState) (date : Int) : String :=
  let key := dateToLocaleDateString z (newDate z s.currentYear s.currentMonth date)
  let entries := s.moodHistory.filter (fun entry => entry.date == key)
  if entries.length > 0 then
    match entries[entries.length - 1]? with
    | some entry => entry.mood
    | none => ""
  else ""

/-- App.jsx lines 128-140. -/
def changeMonth (delta : Int) (s : AppState) : AppState :=
  let newMonth := s.currentMonth + delta
  let newYear := s.currentYear
  if newMonth < 0 then { s with currentMonth := 11, currentYear := newYear - 1 }
  else if newMonth > 11 then { s with currentMonth := 0, currentYear := newYear + 1 }
  else { s with currentMonth := newMonth, currentYear := newYear }

/-- App.jsx lines 143-152. -/
def moodToValue (mood : String) : Int :=
  if mood = "😡" then 1
  else if mood = "😞" then 2
  else if mood = "😐" then 3
  else if mood = "😊" then 4
  else if mood = "😄" then 5
  else 0

/-- A chart dataset: its label and its data series (styling fields left out). -/
structure Dataset where
  label : String
  data : List Int
  deriving DecidableEq, Repr

/-- The value handed to the chart: labels and datasets. -/
structure ChartData where
  labels : List String
  datasets : List Dataset
  deriving DecidableEq, Repr

/-- App.jsx lines 155-167. -/
def chartData (moodHistory : List MoodEntry) : ChartData :=
  { labels := moodHistory.map (fun entry => entry.date)
    datasets :=
      [{ label := "Mood Trend"
         data := moodHistory.map (fun entry => moodToValue entry.mood) }] }

/-- The events of the user interface and of the weather fetch. -/
inductive Action where
  | setMood (emoji : String)
  | setNote (text : String)
  | setWeather (w : Weather)
  | saveMood
  | handleDateClick (day : Int)
  | changeMonth (delta : Int)
  | closeSnackbar
  deriving DecidableEq, Repr

/-- One event handled in a render whose clock reads `today`. -/
def step (z : Zone) (today : Int) (a : Action) (s : AppState) : AppState :=
  match a with
  | .setMood emoji => { s with mood := emoji }
  | .setNote text => { s with note := text }
  | .setWeather w => { s with weather := w }
  | .saveMood => saveMood z today s
  | .handleDateClick day => handleDateClick z today day s
  | .changeMonth delta => changeMonth delta s
  | .closeSnackbar => { s with openSnackbar := false }

/-- A session: events in order, each paired with the clock reading of its render. -/
def run (z : Zone) : List (Int × Action) → AppState → AppState
  | [], s => s
  | (today, a) :: rest, s => run z rest (step z today a s)

/-! ## Definitions in the words of the specification -/

/-- Leap years in the words of the specification: divisible by 4 and not by 100, or
divisible by 400. -/
def specLeapYear (y : Int) : Prop := (y % 4 = 0 ∧ y % 100 ≠ 0) ∨ y % 400 = 0

instance (y : Int) : Decidable (specLeapYear y) := by
  unfold specLeapYear
  infer_instance

/-- Gregorian month lengths in the words of the specification (month 0 = January):
February has 29 days in a leap year and 28 otherwise, April, June, September and
November have 30 days, the other months 31. -/
def gregorianMonthLength (y m : Int) : Int :=
  if m = 1 then (if specLeapYear y then 29 else 28)
  else if m = 3 ∨ m = 5 ∨ m = 8 ∨ m = 10 then 30
  else 31

/-! ## Date arithmetic lemmas -/

theorem DayFromYear_succ (y : Int) : DayFromYear (y + 1) = DayFromYear y + DaysInYear y := by
  unfold DayFromYear DaysInYear
  split_ifs <;> omega

theorem DayFromYear_bounds (y : Int) :
    146097 * (y - 1970) - 607 ≤ 400 * DayFromYear y ∧
      400 * DayFromYear y ≤ 146097 * (y - 1970) + 593 := by
  unfold DayFromYear
  omega

theorem yearFromDay_spec (d : Int) :
    DayFromYear (yearFromDay d) ≤ d ∧ d < DayFromYear (yearFromDay d + 1) := by
  unfold yearFromDay
  simp only
  have h0 := DayFromYear_bounds (1970 + 400 * d / 146097 - 1)
  have h3 := DayFromYear_bounds (1970 + 400 * d / 146097 + 1 + 1)
  have e1 : 1970 + 400 * d / 146097 - 1 + 1 = 1970 + 400 * d / 146097 := by omega
  split_ifs with h1 h2
  · exact ⟨h1, by omega⟩
  · exact ⟨h2, by omega⟩
  · rw [e1]
    exact ⟨by omega, by omega⟩

theorem DayFromYear_lt_succ (y : Int) : DayFromYear y < DayFromYear (y + 1) := by
  rw [DayFromYear_succ]
  unfold DaysInYear
  split_ifs <;> omega

theorem DayFromYear_mono_nat (y : Int) (n : Nat) : DayFromYear y ≤ DayFromYear (y + n) := by
  induction n with
  | zero => simp
  | succ k ih =>
    have h := DayFromYear_lt_succ (y + k)
    have e : y + ((k + 1 : Nat) : Int) = y + k + 1 := by push_cast; ring
    rw [e]
    omega

theorem DayFromYear_mono {a b : Int} (h : a ≤ b) : DayFromYear a ≤ DayFromYear b := by
  obtain ⟨n, hn⟩ := Int.eq_ofNat_of_zero_le (sub_nonneg.mpr h)
  have e : b = a + n := by omega
  rw [e]
  exact DayFromYear_mono_nat a n

/-- A day inside year `y` has year `y`. -/
theorem yearFromDay_eq (y d : Int) (h1 : DayFromYear y ≤ d) (h2 : d < DayFromYear (y + 1)) :
    yearFromDay d = y := by
  obtain ⟨s1, s2⟩ := yearFromDay_spec d
  by_contra hne
  rcases lt_or_gt_of_ne hne with hlt | hgt
  · have := DayFromYear_mono (show yearFromDay d + 1 ≤ y by omega)
    omega
  · have := DayFromYear_mono (show y + 1 ≤ yearFromDay d by omega)
    omega

/-- The embedded `YearFromTime` meets its defining property: the year starts at or
before `t` and the next year starts after `t`. -/
theorem YearFromTime_spec (t : Int) :
    TimeFromYear (YearFromTime t) ≤ t ∧ t < TimeFromYear (YearFromTime t + 1) := by
  obtain ⟨h1, h2⟩ := yearFromDay_spec (Day t)
  unfold TimeFromYear YearFromTime
  unfold Day msPerDay at *
  constructor <;> omega

theorem Day_mul (d : Int) : Day (d * msPerDay) = d := by
  unfold Day msPerDay
  omega

/-- Year, day within the year and leap flag of a time value on day `k` of year `y`. -/
theorem withinYear_of_day (y k t : Int) (hk0 : 0 ≤ k) (hk : k < DaysInYear y)
    (ht : Day t = DayFromYear y + k) :
    YearFromTime t = y ∧ DayWithinYear t = k ∧
      InLeapYear t = (if DaysInYear y = 366 then 1 else 0) := by
  have hy : YearFromTime t = y := by
    unfold YearFromTime
    apply yearFromDay_eq
    · omega
    · rw [DayFromYear_succ]; omega
  refine ⟨hy, ?_, ?_⟩
  · unfold DayWithinYear
    rw [hy]; omega
  · unfold InLeapYear
    rw [hy]

theorem DaysInYear_cases (y : Int) :
    (DaysInYear y = 366 ∧ specLeapYear y) ∨ (DaysInYear y = 365 ∧ ¬ specLeapYear y) := by
  unfold DaysInYear specLeapYear
  split_ifs <;> omega

/-- The day of the month of the last day of month `m` of year `y`. -/
theorem DateFromTime_lastOfMonth (y m t : Int) (hm0 : 0 ≤ m) (hm : m ≤ 11)
    (ht : Day t = DayFromYear (y + (m + 1) / 12) +
      monthStart ((m + 1) % 12) (if DaysInYear (y + (m + 1) / 12) = 366 then 1 else 0) - 1) :
    DateFromTime t = gregorianMonthLength y m := by
  have hsucc := DayFromYear_succ y
  obtain ⟨l, hl⟩ : ∃ l : Int, l = if DaysInYear y = 366 then 1 else 0 := ⟨_, rfl⟩
  obtain ⟨k, hk⟩ : ∃ k : Int, Day t = DayFromYear y + k := ⟨Day t - DayFromYear y, by omega⟩
  have hk' : k = (if m = 11 then DaysInYear y else monthStart (m + 1) l) - 1 := by
    by_cases h11 : m = 11
    · subst h11
      norm_num [monthStart] at ht
      rw [hsucc] at ht
      rw [if_pos rfl]
      omega
    · have e1 : (m + 1) / 12 = 0 := by omega
      have e2 : (m + 1) % 12 = m + 1 := by omega
      rw [e1, e2, add_zero, ← hl] at ht
      rw [if_neg h11]
      omega
  rcases DaysInYear_cases y with ⟨hd, hs⟩ | ⟨hd, hs⟩
  all_goals
    norm_num [hd] at hl
    subst hl
    obtain ⟨m0, hm0e⟩ : ∃ m0 : Int, m0 = m := ⟨m, rfl⟩
    interval_cases m
    all_goals
      norm_num [monthStart, hd] at hk'
      subst hk'
      obtain ⟨h1, h2, h3⟩ := withinYear_of_day y _ t (by norm_num) (by rw [hd]; norm_num) hk
      norm_num [hd] at h3
      have hM : MonthFromTime t = m0 := by
        unfold MonthFromTime
        rw [h2, h3, hm0e]
        norm_num [monthOfDayWithinYear]
      unfold DateFromTime
      simp only
      rw [hM, h2, h3, hm0e]
      norm_num [gregorianMonthLength, hs]

theorem monthStart_zero (l : Int) : monthStart 0 l = 0 := by
  unfold monthStart
  rw [if_pos (le_refl 0)]

theorem TimeClip_of_range (t : Int) (h1 : -maxTime ≤ t) (h2 : t ≤ maxTime) :
    TimeClip t = some t := by
  unfold TimeClip
  rw [if_neg (by omega)]

/-- The constructor call behind `getDaysInMonth`, for a full (already four-digit)
year inside the representable range: a valid date whose day of the month is the
Gregorian length of the month. -/
theorem getDate_lastOfMonth (tz y m : Int) (htz : -msPerDay ≤ tz ∧ tz ≤ msPerDay)
    (hy : -271820 ≤ y ∧ y ≤ 275759) (hm : 0 ≤ m ∧ m ≤ 11) :
    getDate (Zone.fixed tz) (match MakeDay y (m + 1) 0 with
      | none => none
      | some day => TimeClip (UTC (Zone.fixed tz) (MakeDate day (MakeTime 0 0 0 0)))) =
      some (gregorianMonthLength y m) := by
  obtain ⟨f, hf⟩ : ∃ f : Int, f = DayFromYear (y + (m + 1) / 12) +
      monthStart ((m + 1) % 12) (if DaysInYear (y + (m + 1) / 12) = 366 then 1 else 0) :=
    ⟨_, rfl⟩
  have hlo := (DayFromYear_bounds y).1
  have hhi := (DayFromYear_bounds (y + 1)).2
  have hsucc := DayFromYear_succ y
  have hdy : DaysInYear y = 365 ∨ DaysInYear y = 366 := by
    rcases DaysInYear_cases y with ⟨h, _⟩ | ⟨h, _⟩
    · right; exact h
    · left; exact h
  have hfr : DayFromYear y ≤ f - 1 ∧ f ≤ DayFromYear (y + 1) := by
    obtain ⟨hm0, hm11⟩ := hm
    rcases hdy with hd | hd
    all_goals
      interval_cases m
      all_goals
        norm_num [monthStart, hd] at hf
        omega
  have hmax : maxTime = 8640000000000000 := rfl
  have hms : msPerDay = 86400000 := rfl
  have hclip1 : TimeClip (f * msPerDay) = some (f * msPerDay) := by
    apply TimeClip_of_range <;> rw [hmax, hms] <;> omega
  have hclip2 : TimeClip (UTC (Zone.fixed tz) (MakeDate (f + 0 - 1) (MakeTime 0 0 0 0))) =
      some ((f - 1) * msPerDay - tz) := by
    have e : UTC (Zone.fixed tz) (MakeDate (f + 0 - 1) (MakeTime 0 0 0 0)) =
        (f - 1) * msPerDay - tz := by
      simp [UTC, LocalTZA, Zone.fixed, localOffset, MakeDate, MakeTime]
    rw [e]
    apply TimeClip_of_range <;> rw [hmax, hms] <;> rw [hms] at htz <;> omega
  unfold MakeDay
  simp only
  rw [← hf, hclip1]
  simp only
  rw [hclip2]
  unfold getDate
  simp only
  have e3 : LocalTime (Zone.fixed tz) ((f - 1) * msPerDay - tz) = (f - 1) * msPerDay := by
    simp [LocalTime, LocalTZA, Zone.fixed, utcOffset]
  rw [e3]
  congr 1
  apply DateFromTime_lastOfMonth y m _ hm.1 hm.2
  rw [Day_mul, ← hf]

theorem gregorianMonthLength_fullYear (y m : Int) (hy : y ≠ 0) :
    gregorianMonthLength (MakeFullYear y) m = gregorianMonthLength y m := by
  unfold MakeFullYear
  split_ifs with h
  · have e : specLeapYear (1900 + y) ↔ specLeapYear y := by
      unfold specLeapYear
      omega
    unfold gregorianMonthLength
    simp only [e]
  · rfl

theorem gregorianMonthLength_pos (y m : Int) :
    28 ≤ gregorianMonthLength y m ∧ gregorianMonthLength y m ≤ 31 := by
  unfold gregorianMonthLength
  split_ifs <;> omega

/-! ## The time zone: calendar days and local midnights -/

theorem utcOffset_before (o T : Int) (rest : List (Int × Int))
    (h : (match rest with
        | [] => true
        | (T2, _) :: _ => decide (T < T2)) = true) (c : Int) (hc : c ≤ T) :
    utcOffset o rest c = o := by
  cases rest with
  | nil => rfl
  | cons a r =>
    obtain ⟨T2, o2⟩ := a
    simp only [decide_eq_true_eq] at h
    simp only [utcOffset]
    rw [if_pos (by omega)]

/-- In zone data that is `changesOk`, the local calendar day never runs backwards, and
the UTC reading of a local midnight is the first instant whose local calendar day is
that day or a later one. -/
theorem zone_days (o : Int) (cs : List (Int × Int)) (h : changesOk o cs = true) :
    (∀ a b : Int, a ≤ b → Day (a + utcOffset o cs a) ≤ Day (b + utcOffset o cs b)) ∧
    (∀ d : Int, Day (d * msPerDay - localOffset o cs (d * msPerDay) +
        utcOffset o cs (d * msPerDay - localOffset o cs (d * msPerDay))) ≥ d ∧
      ∀ c : Int, c < d * msPerDay - localOffset o cs (d * msPerDay) →
        Day (c + utcOffset o cs c) < d) := by
  induction cs generalizing o with
  | nil =>
    simp only [utcOffset, localOffset]
    unfold Day msPerDay
    refine ⟨fun a b hab => by omega, fun d => ⟨by omega, fun c hc => by omega⟩⟩
  | cons x rest ih =>
    obtain ⟨T, o2⟩ := x
    simp only [changesOk, Bool.and_eq_true, decide_eq_true_eq] at h
    obtain ⟨⟨⟨w2, w3⟩, hs⟩, hr⟩ := h
    obtain ⟨ihA, ihB⟩ := ih o2 hr
    have hT : ∀ c : Int, c ≤ T → utcOffset o2 rest c = o2 := utcOffset_before o2 T rest hs
    have hTT := ihA T
    rw [hT T (le_refl _)] at hTT
    constructor
    · intro a b hab
      simp only [utcOffset]
      by_cases ha : a < T
      · by_cases hb : b < T
        · rw [if_pos ha, if_pos hb]
          unfold Day msPerDay
          omega
        · rw [if_pos ha, if_neg hb]
          have h1 := hTT b (by omega)
          unfold Day msPerDay at *
          omega
      · rw [if_neg ha, if_neg (by omega)]
        exact ihA a b hab
    · intro d
      simp only [localOffset, utcOffset]
      by_cases hM : d * msPerDay < T + max o o2
      · rw [if_pos hM]
        constructor
        · by_cases hu : d * msPerDay - o < T
          · rw [if_pos hu]
            unfold Day msPerDay
            omega
          · rw [if_neg hu]
            have h1 := hTT (d * msPerDay - o) (by omega)
            unfold Day msPerDay at *
            omega
        · intro c hc
          by_cases hcT : c < T
          · rw [if_pos hcT]
            unfold Day msPerDay at *
            omega
          · exfalso
            unfold Day msPerDay at *
            omega
      · rw [if_neg hM]
        obtain ⟨hB1, hB2⟩ := ihB d
        have hu : ¬ (d * msPerDay - localOffset o2 rest (d * msPerDay) < T) := by
          intro hlt
          rw [hT _ (le_of_lt hlt)] at hB1
          unfold Day msPerDay at *
          omega
        rw [if_neg hu]
        refine ⟨hB1, fun c hc => ?_⟩
        by_cases hcT : c < T
        · rw [if_pos hcT]
          unfold Day msPerDay at *
          omega
        · rw [if_neg hcT]
          exact hB2 c hc

theorem setHours0_eq (z : Zone) (t : Int) :
    setHours0 z t = Day (LocalTime z t) * msPerDay -
      localOffset z.base z.changes (Day (LocalTime z t) * msPerDay) := by
  simp [setHours0, UTC, LocalTZA, MakeDate, MakeTime]

/-- The gate against local midnight is the comparison of local calendar days. -/
theorem gate_iff_day (z : Zone) (hz : changesOk z.base z.changes = true) (c t : Int) :
    c ≥ setHours0 z t ↔ Day (LocalTime z c) ≥ Day (LocalTime z t) := by
  obtain ⟨hA, hB⟩ := zone_days z.base z.changes hz
  obtain ⟨hB1, hB2⟩ := hB (Day (LocalTime z t))
  rw [setHours0_eq]
  have hL : ∀ x : Int, LocalTime z x = x + utcOffset z.base z.changes x := fun x => rfl
  constructor
  · intro hge
    have h1 := hA _ _ hge
    rw [hL c]
    exact le_trans hB1 h1
  · intro hday
    by_contra hlt
    have h2 := hB2 c (not_le.mp hlt)
    rw [hL c] at hday
    omega

/-! ## The entry store: `findIndex` and the history written by `saveMood` -/

theorem findIndexFrom_none {α : Type} (p : α → Bool) (l : List α) (k : Nat)
    (h : ∀ x ∈ l, p x = false) : findIndexFrom p l k = -1 := by
  induction l generalizing k with
  | nil => rfl
  | cons x xs ih =>
    have hx : p x = false := h x (List.mem_cons_self x xs)
    have e : findIndexFrom p (x :: xs) k = findIndexFrom p xs (k + 1) := by
      simp [findIndexFrom, hx]
    rw [e]
    exact ih (k + 1) (fun y hy => h y (List.mem_cons_of_mem x hy))

theorem findIndexFrom_split {α : Type} (p : α → Bool) (l : List α) (k : Nat) :
    (findIndexFrom p l k = -1 ∧ ∀ x ∈ l, p x = false) ∨
      ∃ pre x post, l = pre ++ x :: post ∧ p x = true ∧ (∀ y ∈ pre, p y = false) ∧
        findIndexFrom p l k = ((k + pre.length : Nat) : Int) := by
  induction l generalizing k with
  | nil => left; exact ⟨rfl, fun x hx => absurd hx (List.not_mem_nil x)⟩
  | cons a as ih =>
    by_cases ha : p a = true
    · right
      refine ⟨[], a, as, rfl, ha, fun y hy => absurd hy (List.not_mem_nil y), ?_⟩
      simp [findIndexFrom, ha]
    · have ha' : p a = false := by simpa using ha
      rcases ih (k + 1) with ⟨h1, h2⟩ | ⟨pre, x, post, hl, hx, hpre, hidx⟩
      · left
        refine ⟨by simp [findIndexFrom, ha', h1], ?_⟩
        intro y hy
        rcases List.mem_cons.mp hy with rfl | hy'
        · exact ha'
        · exact h2 y hy'
      · right
        refine ⟨a :: pre, x, post, by rw [hl]; rfl, hx, ?_, ?_⟩
        · intro y hy
          rcases List.mem_cons.mp hy with rfl | hy'
          · exact ha'
          · exact hpre y hy'
        · have e : findIndexFrom p (a :: as) k = findIndexFrom p as (k + 1) := by
            simp [findIndexFrom, ha']
          rw [e, hidx]
          simp only [List.length_cons]
          congr 1
          omega

/-- The history after a save of `entry`: either no stored entry satisfies `p` and the
entry is appended, or the first entry satisfying `p` is overwritten where it stands. -/
theorem upsert_split (h : List MoodEntry) (p : MoodEntry → Bool) (entry : MoodEntry) :
    ((∀ x ∈ h, p x = false) ∧
      (if findIndex p h ≥ 0 then h.set (findIndex p h).toNat entry else h ++ [entry]) =
        h ++ [entry]) ∨
    ∃ pre x post, h = pre ++ x :: post ∧ p x = true ∧ (∀ y ∈ pre, p y = false) ∧
      (if findIndex p h ≥ 0 then h.set (findIndex p h).toNat entry else h ++ [entry]) =
        pre ++ entry :: post := by
  unfold findIndex
  rcases findIndexFrom_split p h 0 with ⟨h1, h2⟩ | ⟨pre, x, post, hl, hx, hpre, hidx⟩
  · left
    refine ⟨h2, ?_⟩
    rw [h1, if_neg (by decide)]
  · right
    refine ⟨pre, x, post, hl, hx, hpre, ?_⟩
    rw [hidx, if_pos (Int.ofNat_nonneg _)]
    simp only [Int.toNat_ofNat, Nat.zero_add]
    rw [hl]
    simp

/-- The state after a save that passes the guard. -/
theorem saveMood_valid (z : Zone) (today : Int) (s : AppState) (hm : s.mood ≠ "")
    (hn : s.note ≠ "")
    (hd : s.selectedDate ≥ setHours0 z today) :
    saveMood z today s =
      { s with
        moodHistory :=
          (if findIndex (fun entry => entry.date == toLocaleDateString z s.selectedDate)
                s.moodHistory ≥ 0 then
              s.moodHistory.set
                (findIndex (fun entry => entry.date == toLocaleDateString z s.selectedDate)
                  s.moodHistory).toNat
                { mood := s.mood, note := s.note
                  date := toLocaleDateString z s.selectedDate, weather := s.weather }
            else s.moodHistory ++
              [{ mood := s.mood, note := s.note
                 date := toLocaleDateString z s.selectedDate, weather := s.weather }])
        mood := ""
        note := ""
        snackbarMessage := "Mood saved successfully!"
        openSnackbar := true } := by
  unfold saveMood
  rw [if_pos ⟨hm, hn, hd⟩]

/-- The state after a save that fails the guard. -/
theorem saveMood_invalid (z : Zone) (today : Int) (s : AppState)
    (h : ¬ (s.mood ≠ "" ∧ s.note ≠ "" ∧ s.selectedDate ≥ setHours0 z today)) :
    saveMood z today s = s := by
  unfold saveMood
  rw [if_neg h]

/-- The history after a valid save, by cases on the presence of the key. -/
theorem saveMood_history (z : Zone) (today : Int) (s : AppState) (hm : s.mood ≠ "")
    (hn : s.note ≠ "") (hd : s.selectedDate ≥ setHours0 z today) :
    ((∀ x ∈ s.moodHistory, x.date ≠ toLocaleDateString z s.selectedDate) ∧
      (saveMood z today s).moodHistory = s.moodHistory ++
        [{ mood := s.mood, note := s.note
           date := toLocaleDateString z s.selectedDate, weather := s.weather }]) ∨
    ∃ pre x post, s.moodHistory = pre ++ x :: post ∧
      x.date = toLocaleDateString z s.selectedDate ∧
      (∀ y ∈ pre, y.date ≠ toLocaleDateString z s.selectedDate) ∧
      (saveMood z today s).moodHistory = pre ++
        { mood := s.mood, note := s.note
          date := toLocaleDateString z s.selectedDate, weather := s.weather } :: post := by
  rw [saveMood_valid z today s hm hn hd]
  simp only
  rcases upsert_split s.moodHistory
      (fun entry => entry.date == toLocaleDateString z s.selectedDate)
      { mood := s.mood, note := s.note
        date := toLocaleDateString z s.selectedDate, weather := s.weather } with
    ⟨h1, h2⟩ | ⟨pre, x, post, hl, hx, hpre, hset⟩
  · left
    refine ⟨fun x hx => ?_, h2⟩
    simpa using h1 x hx
  · right
    refine ⟨pre, x, post, hl, by simpa using hx, fun y hy => ?_, hset⟩
    simpa using hpre y hy

theorem saveMood_history_newEntry (z : Zone) (today : Int) (s : AppState) (hm : s.mood ≠ "")
    (hn : s.note ≠ "") (hd : s.selectedDate ≥ setHours0 z today) :
    ((∀ x ∈ s.moodHistory, x.date ≠ (newEntry z s).date) ∧
      (saveMood z today s).moodHistory = s.moodHistory ++ [newEntry z s]) ∨
    ∃ pre x post, s.moodHistory = pre ++ x :: post ∧ x.date = (newEntry z s).date ∧
      (∀ y ∈ pre, y.date ≠ (newEntry z s).date) ∧
      (saveMood z today s).moodHistory = pre ++ newEntry z s :: post :=
  saveMood_history z today s hm hn hd

theorem getMoodForDate_eq (z : Zone) (s : AppState) (date : Int) :
    getMoodForDate z s date = lastMoodFor s.moodHistory (dateKey z s date) := rfl

theorem saveMood_dateKey (z : Zone) (today : Int) (s : AppState) (date : Int) :
    dateKey z (saveMood z today s) date = dateKey z s date := by
  by_cases hg : s.mood ≠ "" ∧ s.note ≠ "" ∧ s.selectedDate ≥ setHours0 z today
  · rw [saveMood_valid z today s hg.1 hg.2.1 hg.2.2]
    rfl
  · rw [saveMood_invalid z today s hg]

theorem lastMoodFor_none (h : List MoodEntry) (key : String)
    (hno : ∀ x ∈ h, x.date ≠ key) : lastMoodFor h key = "" := by
  have e : h.filter (fun entry => entry.date == key) = [] := by
    rw [List.filter_eq_nil_iff]
    intro a ha
    simpa using hno a ha
  unfold lastMoodFor
  simp only [e]
  rfl

theorem filter_date_none (l : List MoodEntry) (key : String) (hno : ∀ x ∈ l, x.date ≠ key) :
    l.filter (fun entry => entry.date == key) = [] := by
  rw [List.filter_eq_nil_iff]
  intro a ha
  simpa using hno a ha

theorem lastMoodFor_last (pre post : List MoodEntry) (e : MoodEntry) (key : String)
    (he : e.date = key) (hpost : ∀ x ∈ post, x.date ≠ key) :
    lastMoodFor (pre ++ e :: post) key = e.mood := by
  have hf : (pre ++ e :: post).filter (fun entry => entry.date == key) =
      pre.filter (fun entry => entry.date == key) ++ [e] := by
    rw [List.filter_append, List.filter_cons, filter_date_none post key hpost]
    simp [he]
  unfold lastMoodFor
  simp only [hf]
  simp

theorem lastMoodFor_skip (pre post : List MoodEntry) (a b : MoodEntry) (key : String)
    (ha : a.date ≠ key) (hb : b.date ≠ key) :
    lastMoodFor (pre ++ a :: post) key = lastMoodFor (pre ++ b :: post) key := by
  have hfa : (pre ++ a :: post).filter (fun entry => entry.date == key) =
      (pre ++ post).filter (fun entry => entry.date == key) := by
    simp [List.filter_append, List.filter_cons, ha]
  have hfb : (pre ++ b :: post).filter (fun entry => entry.date == key) =
      (pre ++ post).filter (fun entry => entry.date == key) := by
    simp [List.filter_append, List.filter_cons, hb]
  unfold lastMoodFor
  simp only [hfa, hfb]

theorem lastMoodFor_append_skip (h : List MoodEntry) (a : MoodEntry) (key : String)
    (ha : a.date ≠ key) : lastMoodFor (h ++ [a]) key = lastMoodFor h key := by
  have hf : (h ++ [a]).filter (fun entry => entry.date == key) =
      h.filter (fun entry => entry.date == key) := by
    simp [List.filter_append, List.filter_cons, ha]
  unfold lastMoodFor
  simp only [hf]

/-- A list either has no entry with date `key`, or splits at the last such entry. -/
theorem last_split (h : List MoodEntry) (key : String) :
    (∀ x ∈ h, x.date ≠ key) ∨
      ∃ pre e post, h = pre ++ e :: post ∧ e.date = key ∧ ∀ x ∈ post, x.date ≠ key := by
  induction h with
  | nil => left; intro x hx; exact absurd hx (List.not_mem_nil x)
  | cons a as ih =>
    rcases ih with hno | ⟨pre, e, post, hl, he, hpost⟩
    · by_cases ha : a.date = key
      · right; exact ⟨[], a, as, rfl, ha, hno⟩
      · left
        intro x hx
        rcases List.mem_cons.mp hx with rfl | hx'
        · exact ha
        · exact hno x hx'
    · right
      exact ⟨a :: pre, e, post, by rw [hl]; rfl, he, hpost⟩

/-- Distinct dates are kept by every valid save. -/
theorem saveMood_nodup (z : Zone) (today : Int) (s : AppState)
    (h : (s.moodHistory.map (fun entry => entry.date)).Nodup) :
    ((saveMood z today s).moodHistory.map (fun entry => entry.date)).Nodup := by
  by_cases hg : s.mood ≠ "" ∧ s.note ≠ "" ∧ s.selectedDate ≥ setHours0 z today
  · obtain ⟨hm, hn, hd⟩ := hg
    rcases saveMood_history_newEntry z today s hm hn hd with
      ⟨hno, happ⟩ | ⟨pre, x, post, hl, hx, _, hset⟩
    · rw [happ, List.map_append, List.map_cons, List.map_nil]
      apply List.Nodup.append h (List.nodup_singleton _)
      intro d hd1 hd2
      rw [List.mem_singleton] at hd2
      obtain ⟨y, hy, hyd⟩ := List.mem_map.mp hd1
      exact hno y hy (hyd.trans hd2)
    · have e : (saveMood z today s).moodHistory.map (fun entry => entry.date) =
          s.moodHistory.map (fun entry => entry.date) := by
        rw [hset, hl]
        simp [hx]
      rw [e]
      exact h
  · rw [saveMood_invalid z today s hg]
    exact h

theorem handleDateClick_moodHistory (z : Zone) (today day : Int) (s : AppState) :
    (handleDateClick z today day s).moodHistory = s.moodHistory := by
  unfold handleDateClick
  generalize newDate z s.currentYear s.currentMonth day = nd
  generalize setHours0 z today = mid
  cases nd with
  | none => rfl
  | some t =>
    by_cases hge : t ≥ mid
    · simp only [if_pos hge]
    · simp only [if_neg hge]

theorem changeMonth_moodHistory (delta : Int) (s : AppState) :
    (changeMonth delta s).moodHistory = s.moodHistory := by
  unfold changeMonth
  by_cases h1 : s.currentMonth + delta < 0
  · simp only [if_pos h1]
  · by_cases h2 : s.currentMonth + delta > 11
    · simp only [if_neg h1, if_pos h2]
    · simp only [if_neg h1, if_neg h2]

theorem step_nodup (z : Zone) (today : Int) (a : Action) (s : AppState)
    (h : (s.moodHistory.map (fun entry => entry.date)).Nodup) :
    ((step z today a s).moodHistory.map (fun entry => entry.date)).Nodup := by
  cases a with
  | setMood emoji => exact h
  | setNote text => exact h
  | setWeather w => exact h
  | saveMood => exact saveMood_nodup z today s h
  | handleDateClick day =>
    change ((handleDateClick z today day s).moodHistory.map (fun entry => entry.date)).Nodup
    rw [handleDateClick_moodHistory]
    exact h
  | changeMonth delta =>
    change ((changeMonth delta s).moodHistory.map (fun entry => entry.date)).Nodup
    rw [changeMonth_moodHistory]
    exact h
  | closeSnackbar => exact h

theorem run_nodup (z : Zone) (acts : List (Int × Action)) (s : AppState)
    (h : (s.moodHistory.map (fun entry => entry.date)).Nodup) :
    ((run z acts s).moodHistory.map (fun entry => entry.date)).Nodup := by
  induction acts generalizing s with
  | nil => exact h
  | cons a rest ih =>
    obtain ⟨today, act⟩ := a
    exact ih (step z today act s) (step_nodup z today act s h)

/-- A state used to instantiate the theorems: 5 November 2024, 01:00 UTC selected,
happy mood, note `ok`, one stored entry for the selected day and one for the next day. -/
def sampleState : AppState :=
  { mood := "😊"
    note := "ok"
    weather := { temp := some 12, condition := "Clouds" }
    moodHistory :=
      [{ mood := "😞", note := "rain", date := "11/5/2024"
         weather := { temp := none, condition := "" } },
       { mood := "😐", note := "plan", date := "11/6/2024"
         weather := { temp := none, condition := "" } }]
    selectedDate := 1730768400000
    currentYear := 2024
    currentMonth := 10
    openSnackbar := false
    snackbarMessage := "" }

/-- The sample state with an empty history. -/
def emptyState : AppState := { sampleState with moodHistory := [] }

/-- The zone of UTC itself: offset zero, no clock changes. -/
def utcZone : Zone := Zone.fixed 0

/-- America/New_York around 2024 and 2025: standard time (UTC-5) until 10 March 2024
07:00 UTC, daylight time (UTC-4) until 3 November 2024 06:00 UTC, and the same for
9 March and 2 November 2025. -/
def newYork : Zone :=
  { base := -18000000
    changes :=
      [(1710054000000, -14400000), (1730613600000, -18000000),
       (1741503600000, -14400000), (1762063200000, -18000000)] }

/-- America/St_Johns in 2010, when the clock changed at 00:01 local time: standard time
(UTC-3:30) until 14 March 03:31 UTC, daylight time (UTC-2:30) until 7 November 02:31 UTC,
when 00:01 became 23:01 of 6 November. -/
def stJohns2010 : Zone :=
  { base := -12600000
    changes := [(1268537460000, -9000000), (1289097060000, -12600000)] }

/-! ## The claims -/

/-- C1: upsert postcondition of `saveMood`.  For non-empty mood and note and an editable
selected date with key `d`, with `e` the entry built from the drafts: if some stored
entry has date `d` and `i` is the first such index, the new history has the length of
the old one, holds `e` at index `i` and agrees with the old history at every other
index; if no stored entry has date `d`, the new history is the old one with `e`
appended. -/
theorem saveMood_upsert (z : Zone) (today : Int) (s : AppState) (hm : s.mood ≠ "")
    (hn : s.note ≠ "") (hd : s.selectedDate ≥ setHours0 z today) :
    (∀ i : Nat, (∃ x, s.moodHistory[i]? = some x ∧ x.date = (newEntry z s).date) →
      (∀ j : Nat, j < i → ∀ y, s.moodHistory[j]? = some y → y.date ≠ (newEntry z s).date) →
      (saveMood z today s).moodHistory.length = s.moodHistory.length ∧
      (saveMood z today s).moodHistory[i]? = some (newEntry z s) ∧
      ∀ j : Nat, j ≠ i → (saveMood z today s).moodHistory[j]? = s.moodHistory[j]?) ∧
    ((∀ x ∈ s.moodHistory, x.date ≠ (newEntry z s).date) →
      (saveMood z today s).moodHistory = s.moodHistory ++ [newEntry z s]) := by
  rcases saveMood_history_newEntry z today s hm hn hd with
    ⟨hno, happ⟩ | ⟨pre, x, post, hl, hx, hpre, hset⟩
  · refine ⟨?_, fun _ => happ⟩
    rintro i ⟨x, hix, hxd⟩ _
    exact absurd hxd (hno x (List.getElem?_mem hix))
  · constructor
    · rintro i ⟨x0, hix, hxd⟩ hfirst
      have hi : i = pre.length := by
        rcases Nat.lt_trichotomy i pre.length with hlt | heq | hgt
        · rw [hl, List.getElem?_append_left hlt] at hix
          exact absurd hxd (hpre x0 (List.getElem?_mem hix))
        · exact heq
        · have hpx : s.moodHistory[pre.length]? = some x := by
            rw [hl, List.getElem?_append_right (le_refl _)]
            simp
          exact absurd hx (hfirst pre.length hgt x hpx)
      subst hi
      refine ⟨?_, ?_, ?_⟩
      · rw [hset, hl]
        simp
      · rw [hset, List.getElem?_append_right (le_refl _)]
        simp
      · intro j hj
        rw [hset, hl]
        rcases Nat.lt_or_gt_of_ne hj with hlt | hgt
        · rw [List.getElem?_append_left hlt, List.getElem?_append_left hlt]
        · rw [List.getElem?_append_right (le_of_lt hgt),
            List.getElem?_append_right (le_of_lt hgt)]
          obtain ⟨k, hk⟩ : ∃ k, j - pre.length = k + 1 := ⟨j - pre.length - 1, by omega⟩
          rw [hk, List.getElem?_cons_succ, List.getElem?_cons_succ]
    · intro hno
      exact absurd hx (hno x (by rw [hl]; simp))

/-- Instance of `saveMood_upsert`: saving on 5 November 2024 overwrites slot 0 of the
sample history and leaves slot 1 and the length as they were. -/
theorem saveMood_upsert_witness :
    (saveMood utcZone 1730800000000 sampleState).moodHistory.length = 2 ∧
      (saveMood utcZone 1730800000000 sampleState).moodHistory[0]? =
        some { mood := "😊", note := "ok", date := "11/5/2024"
               weather := { temp := some 12, condition := "Clouds" } } ∧
      (saveMood utcZone 1730800000000 sampleState).moodHistory[1]? =
        sampleState.moodHistory[1]? :=
  have h := (saveMood_upsert utcZone 1730800000000 sampleState (by decide) (by decide)
    (by decide)).1 0 ⟨_, rfl, by decide⟩ (fun j hj => absurd hj (Nat.not_lt_zero j))
  ⟨h.1, h.2.1, h.2.2 1 (by decide)⟩

/-- C2: an invalid save performs no mutation.  If the mood draft is empty, or the note
draft is empty, or the selected date is earlier than local midnight of today, `saveMood`
returns the state unchanged (history, drafts and snackbar alike). -/
theorem saveMood_invalid_noop (z : Zone) (today : Int) (s : AppState)
    (h : s.mood = "" ∨ s.note = "" ∨ s.selectedDate < setHours0 z today) :
    saveMood z today s = s := by
  apply saveMood_invalid
  rintro ⟨hm, hn, hd⟩
  rcases h with h | h | h
  · exact hm h
  · exact hn h
  · exact absurd hd (not_le.mpr h)

/-- Instance of `saveMood_invalid_noop`: with the clock one day after the selected day
(the selected day is yesterday), a save with mood and note filled in changes nothing. -/
theorem saveMood_invalid_noop_witness :
    saveMood utcZone (1730768400000 + 86400000) sampleState = sampleState :=
  saveMood_invalid_noop utcZone (1730768400000 + 86400000) sampleState
    (Or.inr (Or.inr (by decide)))

/-- C6: key uniqueness is invariant.  If the stored dates are pairwise distinct, they
are pairwise distinct after any `saveMood` (valid or not, new or used date) and after any
sequence of events; from the empty history every reachable history has pairwise distinct
dates. -/
theorem saveMood_dates_nodup (z : Zone) (s : AppState)
    (h : (s.moodHistory.map (fun entry => entry.date)).Nodup) :
    (∀ today, ((saveMood z today s).moodHistory.map (fun entry => entry.date)).Nodup) ∧
    (∀ acts, ((run z acts s).moodHistory.map (fun entry => entry.date)).Nodup) ∧
    (∀ (s0 : AppState) acts, s0.moodHistory = [] →
      ((run z acts s0).moodHistory.map (fun entry => entry.date)).Nodup) := by
  refine ⟨fun today => saveMood_nodup z today s h, fun acts => run_nodup z acts s h, ?_⟩
  intro s0 acts h0
  apply run_nodup
  rw [h0]
  exact List.nodup_nil

/-- Instances of `saveMood_dates_nodup`: a save at the sample state, whose two dates
differ, and a session from the empty history that saves twice on the same day. -/
theorem saveMood_dates_nodup_witness :
    ((saveMood utcZone 1730800000000 sampleState).moodHistory.map
      (fun entry => entry.date)).Nodup ∧
    ((run utcZone [(1730800000000, Action.saveMood), (1730800000000, Action.setMood "😄"),
        (1730800000000, Action.setNote "again"), (1730800000000, Action.saveMood)]
      emptyState).moodHistory.map (fun entry => entry.date)).Nodup :=
  ⟨(saveMood_dates_nodup utcZone sampleState (by decide)).1 1730800000000,
    (saveMood_dates_nodup utcZone emptyState (by decide)).2.1 _⟩

/-- C8: per-day mood lookup.  With `k` the key of the day in the viewed month,
`getMoodForDate` returns the empty string when no stored entry has date `k`, and the
mood of the last stored entry with date `k` otherwise; so it is empty exactly when no
entry has date `k` or that entry has an empty mood, and a non-empty result is the mood
of a stored entry whose date is `k`. -/
theorem getMoodForDate_lookup (z : Zone) (s : AppState) (date : Int) :
    ((∀ x ∈ s.moodHistory, x.date ≠ dateKey z s date) → getMoodForDate z s date = "") ∧
    (∀ pre e post, s.moodHistory = pre ++ e :: post → e.date = dateKey z s date →
      (∀ x ∈ post, x.date ≠ dateKey z s date) → getMoodForDate z s date = e.mood) ∧
    (getMoodForDate z s date = "" ↔
      ((∀ x ∈ s.moodHistory, x.date ≠ dateKey z s date) ∨
        ∃ pre e post, s.moodHistory = pre ++ e :: post ∧ e.date = dateKey z s date ∧
          (∀ x ∈ post, x.date ≠ dateKey z s date) ∧ e.mood = "")) ∧
    (getMoodForDate z s date ≠ "" →
      ∃ x ∈ s.moodHistory, x.date = dateKey z s date ∧ x.mood = getMoodForDate z s date) := by
  rw [getMoodForDate_eq]
  generalize dateKey z s date = k
  have hA : (∀ x ∈ s.moodHistory, x.date ≠ k) → lastMoodFor s.moodHistory k = "" :=
    lastMoodFor_none s.moodHistory k
  have hB : ∀ pre e post, s.moodHistory = pre ++ e :: post → e.date = k →
      (∀ x ∈ post, x.date ≠ k) → lastMoodFor s.moodHistory k = e.mood := by
    intro pre e post hl he hpost
    rw [hl]
    exact lastMoodFor_last pre post e k he hpost
  refine ⟨hA, hB, ⟨?_, ?_⟩, ?_⟩
  · intro hempty
    rcases last_split s.moodHistory k with hno | ⟨pre, e, post, hl, he, hpost⟩
    · left; exact hno
    · right
      refine ⟨pre, e, post, hl, he, hpost, ?_⟩
      rw [← hB pre e post hl he hpost]
      exact hempty
  · rintro (hno | ⟨pre, e, post, hl, he, hpost, hmood⟩)
    · exact hA hno
    · rw [hB pre e post hl he hpost]
      exact hmood
  · intro hne
    rcases last_split s.moodHistory k with hno | ⟨pre, e, post, hl, he, hpost⟩
    · exact absurd (hA hno) hne
    · refine ⟨e, by rw [hl]; simp, he, ?_⟩
      rw [hB pre e post hl he hpost]

/-- C10: read-your-write between save and calendar annotation.  With pairwise distinct
stored dates, non-empty mood and note and an editable selected date with key `k`: after
`saveMood` the lookup of a day whose key is `k` returns the saved mood, and the lookup of
a day whose key differs from `k` returns what it returned before. -/
theorem saveMood_read_your_write (z : Zone) (today : Int) (s : AppState)
    (hu : (s.moodHistory.map (fun entry => entry.date)).Nodup)
    (hm : s.mood ≠ "") (hn : s.note ≠ "") (hd : s.selectedDate ≥ setHours0 z today)
    (day : Int) :
    (dateKey z s day = toLocaleDateString z s.selectedDate →
      getMoodForDate z (saveMood z today s) day = s.mood) ∧
    (dateKey z s day ≠ toLocaleDateString z s.selectedDate →
      getMoodForDate z (saveMood z today s) day = getMoodForDate z s day) := by
  rw [getMoodForDate_eq, getMoodForDate_eq, saveMood_dateKey]
  generalize dateKey z s day = kd
  have hed : (newEntry z s).date = toLocaleDateString z s.selectedDate := rfl
  have hem : (newEntry z s).mood = s.mood := rfl
  rcases saveMood_history_newEntry z today s hm hn hd with
    ⟨hno, happ⟩ | ⟨pre, x, post, hl, hx, hpre, hset⟩
  · rw [happ]
    constructor
    · intro hk
      have h := lastMoodFor_last s.moodHistory [] (newEntry z s) kd (by rw [hed, hk])
        (fun y hy => absurd hy (List.not_mem_nil y))
      rw [h, hem]
    · intro hk
      exact lastMoodFor_append_skip s.moodHistory (newEntry z s) kd
        (by rw [hed]; exact fun h => hk h.symm)
  · have hpost : ∀ y ∈ post, y.date ≠ x.date := by
      rw [hl, List.map_append, List.map_cons] at hu
      have h2 := (List.nodup_cons.mp (List.nodup_append.mp hu).2.1).1
      intro y hy hyx
      exact h2 (List.mem_map.mpr ⟨y, hy, hyx⟩)
    rw [hset]
    constructor
    · intro hk
      have h := lastMoodFor_last pre post (newEntry z s) kd (by rw [hed, hk])
        (fun y hy => by rw [hk, ← hed, ← hx]; exact hpost y hy)
      rw [h, hem]
    · intro hk
      rw [hl]
      exact lastMoodFor_skip pre post (newEntry z s) x kd
        (by rw [hed]; exact fun h => hk h.symm)
        (by rw [hx, hed]; exact fun h => hk h.symm)

/-- Instance of `saveMood_read_your_write` at the sample state: after the save, day 5
of November 2024 shows the saved mood and day 6 still shows its stored mood. -/
theorem saveMood_read_your_write_witness :
    getMoodForDate utcZone (saveMood utcZone 1730800000000 sampleState) 5 = "😊" ∧
      getMoodForDate utcZone (saveMood utcZone 1730800000000 sampleState) 6 =
        getMoodForDate utcZone sampleState 6 :=
  ⟨(saveMood_read_your_write utcZone 1730800000000 sampleState (by decide) (by decide)
      (by decide) (by decide) 5).1 (by decide),
    (saveMood_read_your_write utcZone 1730800000000 sampleState (by decide) (by decide)
      (by decide) (by decide) 6).2 (by decide)⟩

/-- C4 (as stated, refuted): the instance `isEditable(today - 1 day, today) = false`
does not hold whatever the time of day.  In New York at 23:30 on 3 November 2024, a day
of 25 hours, local midnight is 1730606400000 and the instant 86400000 ms before `today`
is 00:30 of the same calendar day: it passes the gate and `saveMood` writes the entry.
And where a clock change carries the clock across a local midnight the gate is not the
comparison of calendar days: in St. John's on 7 November 2010, with `today` at 00:00:30,
an instant fifteen minutes later reads 23:15 of 6 November and still passes the gate. -/
theorem editWindow_counterexample :
    setHours0 newYork 1730694600000 = 1730606400000 ∧
    1730694600000 - msPerDay ≥ setHours0 newYork 1730694600000 ∧
    Day (LocalTime newYork (1730694600000 - msPerDay)) =
      Day (LocalTime newYork 1730694600000) ∧
    (saveMood newYork 1730694600000
      { sampleState with selectedDate := 1730694600000 - msPerDay }).moodHistory ≠
        sampleState.moodHistory ∧
    1289097900000 ≥ setHours0 stJohns2010 1289097030000 ∧
    Day (LocalTime stJohns2010 1289097900000) < Day (LocalTime stJohns2010 1289097030000) := by
  decide

/-- C4 (amended): in a zone whose clock changes come in increasing order and never
carry the local clock across a local midnight, the comparison
`c >= today.setHours(0, 0, 0, 0)` of `saveMood` and `handleDateClick` holds exactly when
the local calendar day of `c` is not before that of `t`.  So it holds for `t` itself,
for every `c` on the calendar day of `t` or on the next one, and fails for every `c` on
the previous calendar day, whatever the times of day; it holds for `t` plus 24 hours,
and in a zone without clock changes it fails for `t` minus 24 hours.  A save is a no-op
when the selected day is before today and goes through otherwise, and a click selects
the clicked day exactly when that day is not before today. -/
theorem editWindow_day_granularity (z : Zone) (hz : changesOk z.base z.changes = true)
    (c t : Int) :
    (c ≥ setHours0 z t ↔ Day (LocalTime z c) ≥ Day (LocalTime z t)) ∧
    t ≥ setHours0 z t ∧
    (Day (LocalTime z c) = Day (LocalTime z t) → c ≥ setHours0 z t) ∧
    (Day (LocalTime z c) = Day (LocalTime z t) - 1 → ¬ (c ≥ setHours0 z t)) ∧
    (Day (LocalTime z c) = Day (LocalTime z t) + 1 → c ≥ setHours0 z t) ∧
    t + msPerDay ≥ setHours0 z t ∧
    (z.changes = [] → ¬ (t - msPerDay ≥ setHours0 z t)) ∧
    (∀ s : AppState, Day (LocalTime z s.selectedDate) < Day (LocalTime z t) →
      saveMood z t s = s) ∧
    (∀ s : AppState, s.mood ≠ "" → s.note ≠ "" →
      Day (LocalTime z s.selectedDate) ≥ Day (LocalTime z t) →
      (saveMood z t s).openSnackbar = true ∧ (saveMood z t s).mood = "") ∧
    (∀ (s : AppState) (day nd : Int), newDate z s.currentYear s.currentMonth day = some nd →
      handleDateClick z t day s =
        if Day (LocalTime z nd) ≥ Day (LocalTime z t) then { s with selectedDate := nd }
        else s) := by
  have key : ∀ c : Int, c ≥ setHours0 z t ↔ Day (LocalTime z c) ≥ Day (LocalTime z t) :=
    fun c => gate_iff_day z hz c t
  have htt : t ≥ setHours0 z t := (key t).mpr (le_refl _)
  refine ⟨key c, htt, ?_, ?_, ?_, ?_, ?_, ?_, ?_, ?_⟩
  · intro h
    exact (key c).mpr (by omega)
  · intro h hge
    have := (key c).mp hge
    omega
  · intro h
    exact (key c).mpr (by omega)
  · unfold msPerDay
    omega
  · intro hfix hge
    have h1 := (key (t - msPerDay)).mp hge
    have e1 : ∀ x : Int, LocalTime z x = x + z.base := by
      intro x
      simp [LocalTime, LocalTZA, hfix, utcOffset]
    rw [e1, e1] at h1
    unfold Day msPerDay at h1
    omega
  · intro s hlt
    apply saveMood_invalid
    rintro ⟨_, _, hge⟩
    rw [key] at hge
    omega
  · intro s hm hn hge
    rw [saveMood_valid z t s hm hn ((key _).mpr hge)]
    exact ⟨rfl, rfl⟩
  · intro s day nd hnd
    unfold handleDateClick
    rw [hnd]
    simp only
    by_cases hge : nd ≥ setHours0 z t
    · rw [if_pos hge, if_pos ((key nd).mp hge)]
    · rw [if_neg hge, if_neg (fun h => hge ((key nd).mpr h))]

/-- Instance of `editWindow_day_granularity` in New York on 3 November 2024 at 23:30:
23:00 of 2 November, on the previous calendar day, fails the gate, and 00:30 of
4 November, on the next calendar day, passes it. -/
theorem editWindow_day_granularity_witness :
    ¬ (1730602800000 ≥ setHours0 newYork 1730694600000) ∧
      1730698200000 ≥ setHours0 newYork 1730694600000 :=
  ⟨(editWindow_day_granularity newYork (by decide) 1730602800000 1730694600000).2.2.2.1
      (by decide),
    (editWindow_day_granularity newYork (by decide) 1730698200000 1730694600000).2.2.2.2.1
      (by decide)⟩

/-- C5: the trend projection is pointwise and keeps the storage order.  The labels and
the data of the single dataset have the length of the history, entry `i` projects to
label `h[i].date` and value `moodToValue h[i].mood`; `moodToValue` sends the five mood
symbols to 1..5 and every other string, the empty one included, to 0; a one-entry
history with the happy mood projects to its date and the value 4. -/
theorem chartData_pointwise (h : List MoodEntry) :
    (chartData h).labels.length = h.length ∧
    (∃ ds, (chartData h).datasets = [ds] ∧ ds.data.length = h.length ∧
      ∀ i : Nat, ∀ x, h[i]? = some x →
        (chartData h).labels[i]? = some x.date ∧ ds.data[i]? = some (moodToValue x.mood)) ∧
    moodToValue "😡" = 1 ∧ moodToValue "😞" = 2 ∧ moodToValue "😐" = 3 ∧
    moodToValue "😊" = 4 ∧ moodToValue "😄" = 5 ∧ moodToValue "" = 0 ∧
    (∀ m : String, m ≠ "😡" → m ≠ "😞" → m ≠ "😐" → m ≠ "😊" → m ≠ "😄" →
      moodToValue m = 0) ∧
    (∀ (d n : String) (w : Weather),
      (chartData [{ mood := "😊", note := n, date := d, weather := w }]).labels = [d] ∧
      (chartData [{ mood := "😊", note := n, date := d, weather := w }]).datasets.map
        (fun ds => ds.data) = [[4]]) := by
  refine ⟨by simp [chartData], ⟨_, rfl, by simp, ?_⟩, by decide, by decide, by decide,
    by decide, by decide, by decide, ?_, ?_⟩
  · intro i x hx
    simp [chartData, hx]
  · intro m h1 h2 h3 h4 h5
    unfold moodToValue
    rw [if_neg h1, if_neg h2, if_neg h3, if_neg h4, if_neg h5]
  · intro d n w
    exact ⟨rfl, rfl⟩

/-- C3 (as stated, refuted): `changeMonth(13)` from June 2024 (month 5) lands on
January 2025 (month 0), not on the month thirteen months later, July 2025 (month 6). -/
theorem changeMonth_delta_counterexample :
    ((changeMonth 13 { sampleState with currentYear := 2024, currentMonth := 5 }).currentYear,
      (changeMonth 13 { sampleState with currentYear := 2024, currentMonth := 5 }).currentMonth)
      = (2025, 0) ∧
    (changeMonth 13 { sampleState with currentYear := 2024, currentMonth := 5 }).currentYear
        * 12 +
      (changeMonth 13 { sampleState with currentYear := 2024, currentMonth := 5 }).currentMonth
      ≠ 2024 * 12 + 5 + 13 := by
  decide

/-- C3 (amended): for a delta that leaves the year by at most one month
(`-1 ≤ month + delta ≤ 12`; for a month in 0..11 this covers the steps `-1`, `0` and
`+1`), `changeMonth` yields the month exactly `delta` months later with the year carried;
for every integer delta the resulting month is in 0..11. -/
theorem changeMonth_delta (delta : Int) (s : AppState)
    (hd : -1 ≤ s.currentMonth + delta ∧ s.currentMonth + delta ≤ 12) :
    (changeMonth delta s).currentYear * 12 + (changeMonth delta s).currentMonth =
        s.currentYear * 12 + s.currentMonth + delta ∧
    ∀ (d : Int) (r : AppState),
      0 ≤ (changeMonth d r).currentMonth ∧ (changeMonth d r).currentMonth ≤ 11 := by
  constructor
  · unfold changeMonth
    by_cases h1 : s.currentMonth + delta < 0
    · simp only [if_pos h1]
      omega
    · by_cases h2 : s.currentMonth + delta > 11
      · simp only [if_neg h1, if_pos h2]
        omega
      · simp only [if_neg h1, if_neg h2]
        omega
  · intro d r
    unfold changeMonth
    by_cases h1 : r.currentMonth + d < 0
    · simp only [if_pos h1]
      omega
    · by_cases h2 : r.currentMonth + d > 11
      · simp only [if_neg h1, if_pos h2]
        omega
      · simp only [if_neg h1, if_neg h2]
        omega

/-- Instance of `changeMonth_delta`: one step back from January 2024. -/
theorem changeMonth_delta_witness :
    (changeMonth (-1) { sampleState with currentYear := 2024, currentMonth := 0 }).currentYear
        * 12 +
      (changeMonth (-1)
        { sampleState with currentYear := 2024, currentMonth := 0 }).currentMonth =
      2024 * 12 + 0 + -1 :=
  (changeMonth_delta (-1) { sampleState with currentYear := 2024, currentMonth := 0 }
    (by decide)).1

/-- C7: single-step month navigation wraps with year carry.  For a month in 0..11,
`changeMonth(-1)` yields December of the previous year from January and the previous
month of the same year otherwise; `changeMonth(+1)` yields January of the next year from
December and the next month of the same year otherwise; the resulting month is in
0..11. -/
theorem changeMonth_single_step (s : AppState)
    (hm : 0 ≤ s.currentMonth ∧ s.currentMonth ≤ 11) :
    (s.currentMonth = 0 → (changeMonth (-1) s).currentYear = s.currentYear - 1 ∧
      (changeMonth (-1) s).currentMonth = 11) ∧
    (s.currentMonth ≠ 0 → (changeMonth (-1) s).currentYear = s.currentYear ∧
      (changeMonth (-1) s).currentMonth = s.currentMonth - 1) ∧
    (s.currentMonth = 11 → (changeMonth 1 s).currentYear = s.currentYear + 1 ∧
      (changeMonth 1 s).currentMonth = 0) ∧
    (s.currentMonth ≠ 11 → (changeMonth 1 s).currentYear = s.currentYear ∧
      (changeMonth 1 s).currentMonth = s.currentMonth + 1) ∧
    0 ≤ (changeMonth (-1) s).currentMonth ∧ (changeMonth (-1) s).currentMonth ≤ 11 ∧
    0 ≤ (changeMonth 1 s).currentMonth ∧ (changeMonth 1 s).currentMonth ≤ 11 := by
  have hback : s.currentMonth = 0 → changeMonth (-1) s =
      { s with currentMonth := 11, currentYear := s.currentYear - 1 } := by
    intro h0
    unfold changeMonth
    simp only [if_pos (show s.currentMonth + -1 < 0 by omega)]
  have hback2 : s.currentMonth ≠ 0 → changeMonth (-1) s =
      { s with currentMonth := s.currentMonth + -1, currentYear := s.currentYear } := by
    intro h0
    unfold changeMonth
    simp only [if_neg (show ¬ s.currentMonth + -1 < 0 by omega),
      if_neg (show ¬ s.currentMonth + -1 > 11 by omega)]
  have hfwd : s.currentMonth = 11 → changeMonth 1 s =
      { s with currentMonth := 0, currentYear := s.currentYear + 1 } := by
    intro h0
    unfold changeMonth
    simp only [if_neg (show ¬ s.currentMonth + 1 < 0 by omega),
      if_pos (show s.currentMonth + 1 > 11 by omega)]
  have hfwd2 : s.currentMonth ≠ 11 → changeMonth 1 s =
      { s with currentMonth := s.currentMonth + 1, currentYear := s.currentYear } := by
    intro h0
    unfold changeMonth
    simp only [if_neg (show ¬ s.currentMonth + 1 < 0 by omega),
      if_neg (show ¬ s.currentMonth + 1 > 11 by omega)]
  refine ⟨fun h => ?_, fun h => ?_, fun h => ?_, fun h => ?_, ?_⟩
  · rw [hback h]; exact ⟨rfl, rfl⟩
  · rw [hback2 h]; exact ⟨rfl, by show s.currentMonth + -1 = s.currentMonth - 1; omega⟩
  · rw [hfwd h]; exact ⟨rfl, rfl⟩
  · rw [hfwd2 h]; exact ⟨rfl, rfl⟩
  · by_cases hb : s.currentMonth = 0 <;> by_cases hf : s.currentMonth = 11
    · omega
    · rw [hback hb, hfwd2 hf]
      show (0 : Int) ≤ 11 ∧ (11 : Int) ≤ 11 ∧ 0 ≤ s.currentMonth + 1 ∧ s.currentMonth + 1 ≤ 11
      omega
    · rw [hback2 hb, hfwd hf]
      show 0 ≤ s.currentMonth + -1 ∧ s.currentMonth + -1 ≤ 11 ∧ (0 : Int) ≤ 0 ∧ (0 : Int) ≤ 11
      omega
    · rw [hback2 hb, hfwd2 hf]
      show 0 ≤ s.currentMonth + -1 ∧ s.currentMonth + -1 ≤ 11 ∧
        0 ≤ s.currentMonth + 1 ∧ s.currentMonth + 1 ≤ 11
      omega

/-- Instances of `changeMonth_single_step` from the specification: one step back from
January 2024 is December 2023, one step forward from December 2023 is January 2024. -/
theorem changeMonth_single_step_witness :
    ((changeMonth (-1) { sampleState with currentYear := 2024, currentMonth := 0 }).currentYear
        = 2023 ∧
      (changeMonth (-1) { sampleState with currentYear := 2024, currentMonth := 0 }).currentMonth
        = 11) ∧
    ((changeMonth 1 { sampleState with currentYear := 2023, currentMonth := 11 }).currentYear
        = 2024 ∧
      (changeMonth 1 { sampleState with currentYear := 2023, currentMonth := 11 }).currentMonth
        = 0) :=
  ⟨(changeMonth_single_step { sampleState with currentYear := 2024, currentMonth := 0 }
      (by decide)).1 rfl,
    (changeMonth_single_step { sampleState with currentYear := 2023, currentMonth := 11 }
      (by decide)).2.2.1 rfl⟩

/-- C9 (as stated, refuted): year 0 is divisible by 400, so the claim gives its February
29 days, but the `Date` constructor reads the year `0` as 1900 and `getDaysInMonth(0, 1)`
is 28; and for a year beyond the range of time values, such as 300000, the date is
invalid and the generated grid is empty. -/
theorem getDaysInMonth_counterexample :
    specLeapYear 0 ∧ gregorianMonthLength 0 1 = 29 ∧ getDaysInMonth utcZone 0 1 = some 28 ∧
      getDaysInMonth utcZone 0 1 ≠ some (gregorianMonthLength 0 1) ∧
      getDaysInMonth utcZone 300000 0 = none ∧ days utcZone 300000 0 = [] := by
  decide

/-- C9 (amended): for every year from -271820 to 275759 other than 0, every month in
0..11 and a zone offset of at most one day, `getDaysInMonth(year, month)` is the
Gregorian length of the month (February has 29 days exactly in the leap years of the
specification), and `days` is `1, 2, ..., daysInMonth` in increasing order. -/
theorem getDaysInMonth_gregorian (tz year month : Int)
    (htz : -msPerDay ≤ tz ∧ tz ≤ msPerDay)
    (hy : -271820 ≤ year ∧ year ≤ 275759) (hy0 : year ≠ 0)
    (hm : 0 ≤ month ∧ month ≤ 11) :
    getDaysInMonth (Zone.fixed tz) year month = some (gregorianMonthLength year month) ∧
    ((days (Zone.fixed tz) year month).length : Int) = gregorianMonthLength year month ∧
    ∀ i : Nat, i < (days (Zone.fixed tz) year month).length →
      (days (Zone.fixed tz) year month)[i]? = some ((i : Int) + 1) := by
  have hfull : -271820 ≤ MakeFullYear year ∧ MakeFullYear year ≤ 275759 := by
    unfold MakeFullYear
    split_ifs <;> omega
  have hg : getDaysInMonth (Zone.fixed tz) year month = some (gregorianMonthLength year month) := by
    unfold getDaysInMonth newDate
    rw [getDate_lastOfMonth tz (MakeFullYear year) month htz hfull hm,
      gregorianMonthLength_fullYear year month hy0]
  have hpos := gregorianMonthLength_pos year month
  refine ⟨hg, ?_, ?_⟩
  · unfold days
    rw [hg]
    simp only [toLength, List.length_map, List.length_range]
    omega
  · intro i hi
    unfold days at hi ⊢
    simp only [List.length_map, List.length_range] at hi
    rw [List.getElem?_map, List.getElem?_range hi]
    rfl

/-- Instances of `getDaysInMonth_gregorian` from the specification: February 2024 has 29
days and February 2023 has 28. -/
theorem getDaysInMonth_gregorian_witness :
    getDaysInMonth utcZone 2024 1 = some 29 ∧
      getDaysInMonth utcZone 2023 1 = some 28 ∧
      days utcZone 2024 1 = [1, 2, 3, 4, 5, 6, 7, 8, 9, 10, 11, 12, 13, 14, 15, 16, 17, 18, 19, 20,
        21, 22, 23, 24, 25, 26, 27, 28, 29] :=
  ⟨(getDaysInMonth_gregorian 0 2024 1 (by decide) (by decide) (by decide) (by decide)).1,
    (getDaysInMonth_gregorian 0 2023 1 (by decide) (by decide) (by decide) (by decide)).1,
    by decide⟩

end Moodiary
